import Mathlib

/-!
Verification of the text-extraction core of the go-fast-pdf repository.

The Go sources are embedded shallowly: `float64` values become `ℚ`,
Go strings and byte slices become `List Nat` (their bytes), Go maps become
association lists, and code paths that panic in Go (out-of-range slice
indexing) become `Option`, with `none` marking the panic.  All definitions
follow the Go source (`pkg/pdf`, `pkg/loader`); the few definitions written
from the specification instead of the source are marked in their doc
comments.
-/

namespace Pdf

/-- Embedding of `Matrix` (a 3x3 transform kept as six float64 entries):
field `a`..`f` are the Go indices 0..5. -/
structure Matrix where
  a : ℚ
  b : ℚ
  c : ℚ
  d : ℚ
  e : ℚ
  f : ℚ
deriving DecidableEq, Repr

/-- Embedding of `IdentityMatrix`. -/
def IdentityMatrix : Matrix := ⟨1, 0, 0, 1, 0, 0⟩

/-- Embedding of `Matrix.Mult`: entrywise as in the Go source
(`a[0]*b[0] + a[1]*b[2]`, ...). -/
def Matrix.mult (x y : Matrix) : Matrix :=
  ⟨x.a * y.a + x.b * y.c,
   x.a * y.b + x.b * y.d,
   x.c * y.a + x.d * y.c,
   x.c * y.b + x.d * y.d,
   x.e * y.a + x.f * y.c + y.e,
   x.e * y.b + x.f * y.d + y.f⟩

/-- Embedding of the PDF `Object` universe from the loader's object model
(`NullObject`, `BooleanObject`, `NumberObject`, `NameObject`,
`StringObject`, `HexStringObject`, `ArrayObject`, `DictionaryObject`,
`IndirectObject`, `StreamObject`, `KeywordObject`).  Strings and byte
slices are byte lists; dictionaries are association lists. -/
inductive Object where
  | Null : Object
  | Boolean : Bool → Object
  | Number : ℚ → Object
  | Name : String → Object
  | Str : List Nat → Object
  | HexStr : List Nat → Object
  | Arr : List Object → Object
  | Dict : List (String × Object) → Object
  | Ref : Nat → Nat → Object
  | Stream : List (String × Object) → List Nat → Object
  | Keyword : String → Object

/-- Embedding of the helper `number`: a `NumberObject` yields its value,
every other object yields 0. -/
def number : Object → ℚ
  | .Number n => n
  | _ => 0

/-- Embedding of `Operation` from `content.go`. -/
structure Operation where
  Operator : String
  Operands : List Object

/-- Embedding of `Font` from the extractor: widths keyed by char code,
the ToUnicode CMap as an association list from uppercase-hex key to the
decoded bytes (`nil` and empty Go maps both embed as `[]`). -/
structure Font where
  BaseFont : String
  CMap : List (String × List Nat)
  Widths : List (Nat × ℚ)
  MissingW : ℚ
  SpaceWidth : ℚ
  IsCID : Bool
deriving DecidableEq, Repr

/-- Embedding of `GraphicsState`. -/
structure GraphicsState where
  CTM : Matrix
deriving DecidableEq, Repr

/-- Embedding of `TextState`. -/
structure TextState where
  Font : Option Pdf.Font
  FontSize : ℚ
  CharSpacing : ℚ
  WordSpacing : ℚ
  Scale : ℚ
  Leading : ℚ
  Rise : ℚ
  TM : Matrix
  TLM : Matrix
deriving DecidableEq, Repr

/-- Embedding of `NewTextState`: identity matrices, scale 100, Go zero
values everywhere else. -/
def NewTextState : TextState :=
  { Font := none, FontSize := 0, CharSpacing := 0, WordSpacing := 0,
    Scale := 100, Leading := 0, Rise := 0,
    TM := IdentityMatrix, TLM := IdentityMatrix }

/-- Embedding of the mutable part of `Extractor`: graphics state and stack,
text state, the font table, the output buffer (bytes) and the last end
position. -/
structure ExtState where
  gState : GraphicsState
  gStack : List GraphicsState
  textState : TextState
  fonts : List (String × Pdf.Font)
  lastX : ℚ
  lastY : ℚ
  buffer : List Nat
deriving DecidableEq, Repr

/-- The extractor state built by `NewExtractor` (identity CTM, fresh text
state, empty buffer), with the loaded font table as a parameter. -/
def mkExtState (fonts : List (String × Pdf.Font)) : ExtState :=
  { gState := { CTM := IdentityMatrix }, gStack := [],
    textState := NewTextState, fonts := fonts,
    lastX := 0, lastY := 0, buffer := [] }

/-- `NewExtractor`'s state for an empty font table. -/
def initExtState : ExtState := mkExtState []

/-- One uppercase hexadecimal digit, as produced by Go's `%X` verb. -/
def hexDigitChar (n : Nat) : Char :=
  if n < 10 then Char.ofNat (48 + n) else Char.ofNat (55 + n)

/-- Embedding of `fmt.Sprintf("%04X", n)` for the values the decoder
formats (always below 0x10000: a 2-byte code `b0<<8|b1` or a 1-byte
code). -/
def hex4 (n : Nat) : String :=
  String.mk [hexDigitChar (n / 4096 % 16), hexDigitChar (n / 256 % 16),
             hexDigitChar (n / 16 % 16), hexDigitChar (n % 16)]

/-- Embedding of Go's `string(b)` for a single byte `b`: the UTF-8
encoding of the code point `b` (two bytes once `b ≥ 0x80`). -/
def latin1Char (b : Nat) : List Nat :=
  if b < 128 then [b] else [192 + b / 64, 128 + b % 64]

/-- Embedding of the CMap decode loop inside `handleText` (the `i`-indexed
`for` loop over `rawBytes`): try the 2-byte key, then the 1-byte key, then
fall back to the raw byte as a Latin-1 character. -/
def cmapDecodeLoop (m : List (String × List Nat)) (bs : List Nat) (i : Nat) : List Nat :=
  if _h : i < bs.length then
    match (if i + 1 < bs.length
           then m.lookup (hex4 (bs.getD i 0 * 256 + bs.getD (i + 1) 0))
           else none) with
    | some v => v ++ cmapDecodeLoop m bs (i + 2)
    | none =>
      match m.lookup (hex4 (bs.getD i 0)) with
      | some v => v ++ cmapDecodeLoop m bs (i + 1)
      | none => latin1Char (bs.getD i 0) ++ cmapDecodeLoop m bs (i + 1)
  else []
termination_by bs.length - i
decreasing_by all_goals omega

/-- Embedding of step 3 of `handleText`: decode through the font's CMap
when the font is set and its CMap is non-empty, otherwise Go's
`string(rawBytes)`, which copies the bytes unchanged. -/
def goStringDecode (font : Option Pdf.Font) (bs : List Nat) : List Nat :=
  match font with
  | some f => if f.CMap ≠ [] then cmapDecodeLoop f.CMap bs 0 else bs
  | none => bs

/-- Structural greedy decode, written from the specification's wording for
claim C3: at each position try the 2-byte key, then the 1-byte key, and on
both missing emit the raw byte as a Latin-1 character. -/
def greedyDecode (m : List (String × List Nat)) : List Nat → List Nat
  | [] => []
  | [b] =>
    (match m.lookup (hex4 b) with
     | some v => v
     | none => latin1Char b)
  | b0 :: b1 :: rest =>
    match m.lookup (hex4 (b0 * 256 + b1)) with
    | some v => v ++ greedyDecode m rest
    | none =>
      match m.lookup (hex4 b0) with
      | some v => v ++ greedyDecode m (b1 :: rest)
      | none => latin1Char b0 ++ greedyDecode m (b1 :: rest)

/-- The decode function described by the amended claim C3: greedy CMap
decoding when a font with a non-empty CMap is current, byte-identity
otherwise. -/
def specDecodeAmended (font : Option Pdf.Font) (bs : List Nat) : List Nat :=
  match font with
  | some f => if f.CMap ≠ [] then greedyDecode f.CMap bs else bs
  | none => bs

/-- Modelled from the spec: the claim's reading of the no-CMap path, every
byte "emitted as a Latin-1 character" (i.e. UTF-8 encoded). -/
def claimLatin1Decode : List Nat → List Nat
  | [] => []
  | b :: rest => latin1Char b ++ claimLatin1Decode rest

/-- Embedding of the `spaceWidth` local of `handleText`: the font's space
width converted to user space, or 0 when no font is set. -/
def sourceSpaceWidth (ts : TextState) : ℚ :=
  match ts.Font with
  | some f => f.SpaceWidth / 1000 * ts.FontSize * (ts.Scale / 100)
  | none => 0

/-- Embedding of the `threshold` local of `handleText`: half the user-space
space width when that is positive, otherwise 0.2 times the font size. -/
def sourceThreshold (ts : TextState) : ℚ :=
  if sourceSpaceWidth ts > 0 then sourceSpaceWidth ts * (1 / 2)
  else ts.FontSize * (1 / 5)

/-- The threshold rule of the amended claim C2, written from the amended
wording: `0.5 × sw_user` when the font is known and `sw_user` is positive,
`0.2 × size` otherwise. -/
def amendedThreshold (ts : TextState) : ℚ :=
  match ts.Font with
  | some f =>
    if f.SpaceWidth / 1000 * ts.FontSize * (ts.Scale / 100) > 0
    then f.SpaceWidth / 1000 * ts.FontSize * (ts.Scale / 100) * (1 / 2)
    else ts.FontSize * (1 / 5)
  | none => ts.FontSize * (1 / 5)

/-- Modelled from the spec: the threshold rule exactly as claim C2 states
it — `0.5 × sw_user` when the font is known, `0.2 × size` when the font is
unknown or the space width is 0. -/
def claimThreshold (ts : TextState) : ℚ :=
  match ts.Font with
  | some f =>
    if f.SpaceWidth = 0 then ts.FontSize * (1 / 5)
    else f.SpaceWidth / 1000 * ts.FontSize * (ts.Scale / 100) * (1 / 2)
  | none => ts.FontSize * (1 / 5)

/-- Embedding of step 2/3 of `handleText` (whitespace reconstruction): the
bytes written before the decoded text, given the start position `(x, y)` of
the shown string.  A newline when the vertical jump exceeds half the font
size and the buffer is non-empty; else a space when the horizontal gap
exceeds the threshold, the buffer is non-empty and does not already end in
a newline or space. -/
def wsSep (s : ExtState) (x y : ℚ) : List Nat :=
  if |y - s.lastY| > s.textState.FontSize * (1 / 2) then
    if s.buffer ≠ [] then [10] else []
  else
    if x - s.lastX > sourceThreshold s.textState
        ∧ s.buffer ≠ [] ∧ s.buffer.getLast? ≠ some 10 ∧ s.buffer.getLast? ≠ some 32
    then [32] else []

/-- Embedding of step 4 of `handleText` (`totalWidth`): with a font whose
widths table is non-empty, sum the per-byte widths (missing-width default),
convert to user space, add char spacing for every raw byte and word spacing
for every space in the decoded string, and apply the horizontal scale;
otherwise 0.5 em per decoded byte. -/
def sourceTotalWidth (ts : TextState) (rawBytes decoded : List Nat) : ℚ :=
  match ts.Font with
  | some f =>
    if f.Widths ≠ [] then
      (rawBytes.foldl (fun acc b => acc + ((f.Widths.lookup b).getD f.MissingW)) 0
         / 1000 * ts.FontSize
       + (rawBytes.length : ℚ) * ts.CharSpacing
       + (decoded.count 32 : ℚ) * ts.WordSpacing) * (ts.Scale / 100)
    else (decoded.length : ℚ) * ts.FontSize * (1 / 2) * (ts.Scale / 100)
  | none => (decoded.length : ℚ) * ts.FontSize * (1 / 2) * (ts.Scale / 100)

/-- The string operand kinds accepted by `handleText` (its leading type
switch): literal and hex strings give their bytes, everything else returns
early. -/
def rawBytesOf : Object → Option (List Nat)
  | .Str s => some s
  | .HexStr s => some s
  | _ => none

/-- The advance width of the §4.5 formula, written from claim C1's wording
(with widths table: `(sum/1000 × size + char_spacing × |raw| +
word_spacing × spaces(decoded)) × scale/100`; without: `|decoded| × size ×
0.5 × scale/100`). -/
def advanceWidthSpec (ts : TextState) (bs : List Nat) : ℚ :=
  match ts.Font with
  | some f =>
    if f.Widths ≠ [] then
      ((bs.map (fun b => (f.Widths.lookup b).getD f.MissingW)).sum / 1000 * ts.FontSize
       + ts.CharSpacing * (bs.length : ℚ)
       + ts.WordSpacing * ((goStringDecode ts.Font bs).count 32 : ℚ))
      * (ts.Scale / 100)
    else ((goStringDecode ts.Font bs).length : ℚ) * ts.FontSize * (1 / 2) * (ts.Scale / 100)
  | none => ((goStringDecode ts.Font bs).length : ℚ) * ts.FontSize * (1 / 2) * (ts.Scale / 100)

/-- Embedding of `handleText`: start position from `TM × CTM`, whitespace
reconstruction, CMap decode, buffer append, and the `lastX`/`lastY`/`TM`
advance. -/
def handleText (s : ExtState) (obj : Object) : ExtState :=
  match rawBytesOf obj with
  | none => s
  | some rawBytes =>
    let fm := s.textState.TM.mult s.gState.CTM
    let x := fm.e
    let y := fm.f
    let sep := wsSep s x y
    let decoded := goStringDecode s.textState.Font rawBytes
    let totalWidth := sourceTotalWidth s.textState rawBytes decoded
    { s with
      buffer := s.buffer ++ sep ++ decoded,
      lastX := x + totalWidth,
      lastY := y,
      textState := { s.textState with
        TM := { s.textState.TM with
          e := s.textState.TM.e + totalWidth * s.textState.TM.a,
          f := s.textState.TM.f + totalWidth * s.textState.TM.b } } }

/-- Embedding of the `TJ` element step: numbers shift the text matrix by
`-n/1000 × size × scale/100` through the matrix orientation, everything
else is shown. -/
def tjStep (s : ExtState) (o : Object) : ExtState :=
  match o with
  | .Number n =>
    let shift := -n / 1000 * s.textState.FontSize * (s.textState.Scale / 100)
    { s with textState := { s.textState with
        TM := { s.textState.TM with
          e := s.textState.TM.e + shift * s.textState.TM.a,
          f := s.textState.TM.f + shift * s.textState.TM.b } } }
  | _ => handleText s o

/-- Embedding of the `T*` branch of `processOp`. -/
def applyTStar (s : ExtState) : ExtState :=
  let m : Matrix := ⟨1, 0, 0, 1, 0, -s.textState.Leading⟩
  let tlm := m.mult s.textState.TLM
  { s with textState := { s.textState with TLM := tlm, TM := tlm } }

/-- Embedding of the `Tj` branch of `processOp` (guarded by a length
check in the source, hence total). -/
def applyTj (s : ExtState) (operands : List Object) : ExtState :=
  match operands with
  | [] => s
  | o :: _ => handleText s o

/-- Embedding of the `Td`/`TD` shared tail: `TLM = [1 0 0 1 tx ty] × TLM`,
`TM = TLM`. -/
def applyTd (s : ExtState) (tx ty : ℚ) : ExtState :=
  let m : Matrix := ⟨1, 0, 0, 1, tx, ty⟩
  let tlm := m.mult s.textState.TLM
  { s with textState := { s.textState with TLM := tlm, TM := tlm } }

/-- Embedding of `argsToMatrix` (only reached behind the source's length-6
guards). -/
def argsToMatrix (args : List Object) : Matrix :=
  ⟨number (args.getD 0 .Null), number (args.getD 1 .Null),
   number (args.getD 2 .Null), number (args.getD 3 .Null),
   number (args.getD 4 .Null), number (args.getD 5 .Null)⟩

/-- The single-quote and double-quote PDF operators, built by code point
to keep the operator table readable. -/
def quoteOp : String := String.mk [Char.ofNat 39]

/-- The double-quote show operator. -/
def dquoteOp : String := String.mk [Char.ofNat 34]

/-- Embedding of `processOp`.  Go's `switch` becomes an `if`-chain on the
operator; unguarded operand indexing (`op.Operands[k]`) becomes `List.get?`
with `none` for the out-of-range panic, which aborts the page. -/
def processOp (s : ExtState) (op : Operation) : Option ExtState :=
  if op.Operator = "q" then
    some { s with gStack := s.gStack ++ [s.gState] }
  else if op.Operator = "Q" then
    match s.gStack.getLast? with
    | some g => some { s with gState := g, gStack := s.gStack.dropLast }
    | none => some s
  else if op.Operator = "cm" then
    if op.Operands.length = 6 then
      some { s with gState := { s.gState with
        CTM := (argsToMatrix op.Operands).mult s.gState.CTM } }
    else some s
  else if op.Operator = "BT" then
    some { s with textState := { s.textState with
      TM := IdentityMatrix, TLM := IdentityMatrix } }
  else if op.Operator = "Tc" then
    match op.Operands.get? 0 with
    | some o => some { s with textState := { s.textState with CharSpacing := number o } }
    | none => none
  else if op.Operator = "Tw" then
    match op.Operands.get? 0 with
    | some o => some { s with textState := { s.textState with WordSpacing := number o } }
    | none => none
  else if op.Operator = "Tz" then
    match op.Operands.get? 0 with
    | some o => some { s with textState := { s.textState with Scale := number o } }
    | none => none
  else if op.Operator = "TL" then
    match op.Operands.get? 0 with
    | some o => some { s with textState := { s.textState with Leading := number o } }
    | none => none
  else if op.Operator = "Tf" then
    match op.Operands.get? 0 with
    | none => none
    | some o0 =>
      let s1 :=
        match o0 with
        | .Name nm =>
          match s.fonts.lookup nm with
          | some f => { s with textState := { s.textState with Font := some f } }
          | none => s
        | _ => s
      match op.Operands.get? 1 with
      | none => none
      | some o1 => some { s1 with textState := { s1.textState with FontSize := number o1 } }
  else if op.Operator = "Td" then
    match op.Operands.get? 0, op.Operands.get? 1 with
    | some o0, some o1 => some (applyTd s (number o0) (number o1))
    | _, _ => none
  else if op.Operator = "TD" then
    match op.Operands.get? 0, op.Operands.get? 1 with
    | some o0, some o1 =>
      some (applyTd { s with textState := { s.textState with Leading := -number o1 } }
              (number o0) (number o1))
    | _, _ => none
  else if op.Operator = "Tm" then
    if op.Operands.length = 6 then
      let m := argsToMatrix op.Operands
      some { s with textState := { s.textState with TM := m, TLM := m } }
    else some s
  else if op.Operator = "T*" then
    some (applyTStar s)
  else if op.Operator = "Tj" then
    some (applyTj s op.Operands)
  else if op.Operator = "TJ" then
    match op.Operands.get? 0 with
    | none => none
    | some o0 =>
      match o0 with
      | .Arr elems => some (elems.foldl tjStep s)
      | _ => some s
  else if op.Operator = quoteOp then
    some (applyTj (applyTStar s) op.Operands)
  else if op.Operator = dquoteOp then
    match op.Operands.get? 0, op.Operands.get? 1 with
    | some o0, some o1 =>
      some (applyTj
        (applyTStar { s with textState := { s.textState with
          WordSpacing := number o0, CharSpacing := number o1 } })
        (op.Operands.drop 2))
    | _, _ => none
  else
    some s

/-- Embedding of the operator loop of `ExtractText` (`for _, op := range
ops { e.processOp(op) }`), with panic propagation. -/
def processOps : List Operation → ExtState → Option ExtState
  | [], s => some s
  | op :: rest, s =>
    match processOp s op with
    | some s1 => processOps rest s1
    | none => none

/-- Modelled from the spec: the lexer's whitespace byte class (NUL, TAB,
LF, FF, CR, SPACE); the lexer source file is not part of the provided
sources. -/
def isWhitespaceByte (b : Nat) : Bool :=
  b = 0 || b = 9 || b = 10 || b = 12 || b = 13 || b = 32

/-- Modelled from the spec: the lexer's delimiter byte class
`( ) < > [ ] \x7b \x7d / %`; the lexer source file is not part of the
provided sources. -/
def isDelimiterByte (b : Nat) : Bool :=
  b = 40 || b = 41 || b = 60 || b = 62 || b = 91 || b = 93 ||
  b = 123 || b = 125 || b = 47 || b = 37

/-- Embedding of the EOL consumption after `ID` in `skipInlineImage`:
a CR, LF or CR-LF is consumed, any other byte is left in place. -/
def consumeEOL : List Nat → List Nat
  | 13 :: 10 :: rest => rest
  | 13 :: rest => rest
  | 10 :: rest => rest
  | bs => bs

/-- Embedding of the `EI`-marker scan of `skipInlineImage` (step 3): read
bytes; on an `E` whose next byte is `I`, consume both and stop if the byte
after `EI` is whitespace, a delimiter, or absent (EOF); otherwise keep
scanning.  Returns the bytes remaining after the marker, or `none` when
the data ends without a marker (the source returns a read error).  Note
the source never checks the byte *preceding* `E`. -/
def scanEI : List Nat → Option (List Nat)
  | [] => none
  | 69 :: 73 :: rest2 =>
    (match rest2 with
     | [] => some []
     | c :: _ =>
       if isWhitespaceByte c || isDelimiterByte c then some rest2
       else scanEI rest2)
  | _ :: rest => scanEI rest

/-- Modelled from the spec: the scan claim C5 describes — consumption ends
at the first `EI` that is both *preceded* and followed by whitespace or a
delimiter (or EOF); `prev` says whether the byte before the current
position was whitespace or a delimiter (the EOL after `ID` counts). -/
def specEIScan (prev : Bool) : List Nat → Option (List Nat)
  | [] => none
  | 69 :: 73 :: rest2 =>
    if prev && (match rest2 with
                | [] => true
                | c :: _ => isWhitespaceByte c || isDelimiterByte c)
    then some rest2
    else specEIScan (isWhitespaceByte 69 || isDelimiterByte 69) (73 :: rest2)
  | b :: rest => specEIScan (isWhitespaceByte b || isDelimiterByte b) rest

/-- Embedding of `model.Page` as built by `LoadPDF`. -/
structure PageRec where
  pageNumber : Nat
  content : List Nat
  charCount : Nat
  width : ℚ
  height : ℚ
deriving DecidableEq, Repr

/-- Embedding of the MediaBox handling in `LoadPDF`: dimensions are the
third and fourth entries of a 4-element `/MediaBox` array when they are
numbers, otherwise 0. -/
def pageDims (page : List (String × Object)) : ℚ × ℚ :=
  match page.lookup ("/MediaBox") with
  | some (Object.Arr mBox) =>
    if mBox.length = 4 then
      ((match mBox.get? 2 with | some (.Number w) => w | _ => 0),
       (match mBox.get? 3 with | some (.Number h) => h | _ => 0))
    else (0, 0)
  | _ => (0, 0)

/-- Embedding of the page-record construction in `LoadPDF`: 1-based page
number, extracted content, `char_count = len(text)` (byte length), and
the MediaBox dimensions. -/
def buildPage (i : Nat) (page : List (String × Object)) (text : List Nat) : PageRec :=
  { pageNumber := i + 1, content := text, charCount := text.length,
    width := (pageDims page).1, height := (pageDims page).2 }

/-- Embedding of one iteration of the `LoadPDF` page loop: the three
fallible stages (`GetPage`, `NewExtractor`, `ExtractText`) are parameters;
a `none` at any stage is the `continue` that skips the page. -/
def pageStep (getPage : Nat → Option (List (String × Object)))
    (newExtractor : List (String × Object) → Option ExtState)
    (extract : ExtState → Option (List Nat)) (i : Nat) : Option PageRec :=
  match getPage i with
  | none => none
  | some page =>
    match newExtractor page with
    | none => none
    | some ext =>
      match extract ext with
      | none => none
      | some text => some (buildPage i page text)

/-- Embedding of the `LoadPDF` page loop (`for i := 0; i < numPages; i++`
with `continue` on per-page errors and `append` on success). -/
def loadPDFPages (numPages : Nat) (getPage : Nat → Option (List (String × Object)))
    (newExtractor : List (String × Object) → Option ExtState)
    (extract : ExtState → Option (List Nat)) : List PageRec :=
  (List.range numPages).filterMap (pageStep getPage newExtractor extract)

/-- The object stored under `/Contents` in the page dictionary (a missing
key is Go's `nil` interface, embedded as `Null`: neither case of the
type switch matches it). -/
def contentsObj (page : List (String × Object)) : Object :=
  (page.lookup ("/Contents")).getD Object.Null

/-- The stream type assertion used in `ExtractText`'s `/Contents`
handling. -/
def asStream : Object → Option (List (String × Object) × List Nat)
  | .Stream d dat => some (d, dat)
  | _ => none

/-- Whether the resolved `/Contents` object matches either case of
`ExtractText`'s type switch. -/
def isContentsCase : Object → Bool
  | .Arr _ => true
  | .Stream _ _ => true
  | _ => false

/-- Embedding of the `/Contents` resolution in `ExtractText`: an array
keeps, in order, the elements that resolve to streams; a single stream is
kept; everything else yields no streams. -/
def collectStreams (resolve : Object → Object) (contents : Object) :
    List (List (String × Object) × List Nat) :=
  match contents with
  | .Arr elems => elems.filterMap (fun ref => asStream (resolve ref))
  | .Stream d dat => [(d, dat)]
  | _ => []

/-- Embedding of `ExtractText`: resolve `/Contents`, collect the streams,
parse each (a parse error returns an error) and run the operator loop;
the result is the final buffer.  The reader's `Resolve` and the
content-stream parser are parameters (the parser reuses the lexer, whose
source file is not provided). -/
def extractText (resolve : Object → Object)
    (parse : List Nat → Option (List Operation))
    (page : List (String × Object)) (s : ExtState) : Option (List Nat) :=
  let contents := resolve (contentsObj page)
  let streams := collectStreams resolve contents
  (streams.foldlM (fun st (sd : List (String × Object) × List Nat) =>
      match parse sd.2 with
      | none => none
      | some ops => processOps ops st) s).map ExtState.buffer

/-- Dyck balance of the `q`/`Q` projection of an operation sequence,
carrying the current nesting depth: every `Q` must close an open `q` and
the sequence must end at depth 0. -/
def qqBalancedAux : List Operation → Nat → Bool
  | [], d => d == 0
  | op :: rest, d =>
    if op.Operator = "q" then qqBalancedAux rest (d + 1)
    else if op.Operator = "Q" then d != 0 && qqBalancedAux rest (d - 1)
    else qqBalancedAux rest d

/-- A font whose `/Widths` entry gave code 32 the (nonsensical but
representable) width -100, making `SpaceWidth` negative; used to separate
the source's threshold rule from claim C2's wording. -/
def negSpaceFont : Pdf.Font :=
  { BaseFont := "F1", CMap := [], Widths := [(32, -100)],
    MissingW := 0, SpaceWidth := -100, IsCID := false }

/-- Extractor state reached after `BT /F1 12 Tf (A) Tj` with
`negSpaceFont`: buffer holds "A", the last end position is the origin, and
the text matrix is still the identity (code 65 has the missing width 0). -/
def negSpaceState : ExtState :=
  { gState := { CTM := IdentityMatrix }, gStack := [],
    textState := { NewTextState with Font := some negSpaceFont, FontSize := 12 },
    fonts := [("F1", negSpaceFont)],
    lastX := 0, lastY := 0, buffer := [65] }

/-- A simple Helvetica-like font for witnesses: width 500 for code 65,
250 for the space, empty CMap. -/
def simpleFont : Pdf.Font :=
  { BaseFont := "F1", CMap := [], Widths := [(32, 250), (65, 500)],
    MissingW := 0, SpaceWidth := 250, IsCID := false }

/-- Extractor state with `simpleFont` selected at size 12, used by
witnesses. -/
def simpleState : ExtState :=
  { gState := { CTM := IdentityMatrix }, gStack := [],
    textState := { NewTextState with Font := some simpleFont, FontSize := 12 },
    fonts := [("F1", simpleFont)],
    lastX := 0, lastY := 0, buffer := [] }

/-- The `cm 2 0 0 2 0 0` operation. -/
def cmDouble : Operation :=
  { Operator := "cm",
    Operands := [.Number 2, .Number 0, .Number 0, .Number 2, .Number 0, .Number 0] }

/-- Claim C4: the source guards `cm`, `Tm` and `Tj` against missing
operands, but `Tc`, `Tw`, `Tz`, `TL`, `Tf`, `Td` and `TD` index
`op.Operands[0]` (and `[1]`) unconditionally: with an empty operand list
Go panics (index out of range) and the page aborts, instead of skipping
the operation. -/
theorem processOp_panics_on_missing_operands :
    processOp initExtState ⟨"Tc", []⟩ = none
    ∧ processOp initExtState ⟨"Tw", []⟩ = none
    ∧ processOp initExtState ⟨"Tz", []⟩ = none
    ∧ processOp initExtState ⟨"TL", []⟩ = none
    ∧ processOp initExtState ⟨"Tf", []⟩ = none
    ∧ processOp initExtState ⟨"Td", []⟩ = none
    ∧ processOp initExtState ⟨"TD", []⟩ = none
    ∧ processOp initExtState ⟨"cm", []⟩ = some initExtState
    ∧ processOp initExtState ⟨"Tm", []⟩ = some initExtState
    ∧ processOp initExtState ⟨"Tj", []⟩ = some initExtState := by
  decide

/-- Claim C5: the inline-image scan stops at the `EI` in the data bytes
`A E I SP Q` although the marker is preceded by the regular byte `A`; the
scan the claim (and the source's own comment) describes, which requires a
preceding whitespace or delimiter, finds no marker in these bytes. -/
theorem scanEI_ignores_preceding_byte :
    scanEI [65, 69, 73, 32, 81] = some [32, 81]
    ∧ specEIScan true [65, 69, 73, 32, 81] = none
    ∧ isWhitespaceByte 65 = false
    ∧ isDelimiterByte 65 = false := by
  decide

/-- Claim C3, counterexample: with no font (or an empty CMap) the source
copies the shown bytes unchanged (`string(rawBytes)`), so byte 0xE9 stays
a single byte, while "emitted as a Latin-1 character" would be the UTF-8
pair C3 A9. -/
theorem decode_no_font_not_latin1 :
    goStringDecode none [233] = [233]
    ∧ claimLatin1Decode [233] = [195, 169]
    ∧ goStringDecode none [233] ≠ claimLatin1Decode [233] := by
  decide

/-- Claim C6, counterexample: the single-operation sequence `cm 2 0 0 2 0 0`
has a balanced (empty) `q`/`Q` projection, yet it doubles the CTM, so the
ending CTM differs from the starting identity. -/
theorem balanced_ops_can_change_ctm :
    qqBalancedAux [cmDouble] 0 = true
    ∧ (processOps [cmDouble] initExtState).map (fun s => s.gState.CTM)
        = some ⟨2, 0, 0, 2, 0, 0⟩
    ∧ (⟨2, 0, 0, 2, 0, 0⟩ : Matrix) ≠ initExtState.gState.CTM := by
  refine ⟨by decide, ?_, ?_⟩
  · simp [processOps, processOp, cmDouble, initExtState, mkExtState, argsToMatrix,
      Matrix.mult, IdentityMatrix, number]
  · simp [initExtState, mkExtState, IdentityMatrix, Matrix.mk.injEq]

theorem handleText_gStack (s : ExtState) (obj : Object) :
    (handleText s obj).gStack = s.gStack := by
  cases obj <;> rfl

theorem tjStep_gStack (s : ExtState) (o : Object) :
    (tjStep s o).gStack = s.gStack := by
  cases o <;> rfl

theorem foldl_tjStep_gStack (elems : List Object) (s : ExtState) :
    (elems.foldl tjStep s).gStack = s.gStack := by
  induction elems generalizing s with
  | nil => rfl
  | cons o rest ih => rw [List.foldl_cons, ih, tjStep_gStack]

theorem applyTStar_gStack (s : ExtState) : (applyTStar s).gStack = s.gStack := rfl

theorem applyTd_gStack (s : ExtState) (tx ty : ℚ) :
    (applyTd s tx ty).gStack = s.gStack := rfl

theorem applyTj_gStack (s : ExtState) (operands : List Object) :
    (applyTj s operands).gStack = s.gStack := by
  cases operands with
  | nil => rfl
  | cons o rest => exact handleText_gStack s o

theorem processOp_of_q {op : Operation} (h : op.Operator = "q") (s : ExtState) :
    processOp s op = some { s with gStack := s.gStack ++ [s.gState] } := by
  unfold processOp
  rw [if_pos h]

theorem processOp_of_Q {op : Operation} (h : op.Operator = "Q") (s : ExtState) :
    processOp s op =
      some (match s.gStack.getLast? with
            | some g => { s with gState := g, gStack := s.gStack.dropLast }
            | none => s) := by
  unfold processOp
  rw [if_neg (by rw [h]; decide), if_pos h]
  cases s.gStack.getLast? <;> rfl

theorem processOp_of_cm {op : Operation} (h : op.Operator = "cm") (s : ExtState) :
    processOp s op =
      (if op.Operands.length = 6 then
        some { s with gState := { s.gState with
          CTM := (argsToMatrix op.Operands).mult s.gState.CTM } }
      else some s) := by
  simp only [processOp, h, String.reduceEq, reduceIte]

theorem processOp_of_BT {op : Operation} (h : op.Operator = "BT") (s : ExtState) :
    processOp s op =
      some { s with textState := { s.textState with
        TM := IdentityMatrix, TLM := IdentityMatrix } } := by
  simp only [processOp, h, String.reduceEq, reduceIte]

theorem processOp_of_Tc {op : Operation} (h : op.Operator = "Tc") (s : ExtState) :
    processOp s op =
      (match op.Operands.get? 0 with
       | some o => some { s with textState := { s.textState with CharSpacing := number o } }
       | none => none) := by
  simp only [processOp, h, String.reduceEq, reduceIte]

theorem processOp_of_Tw {op : Operation} (h : op.Operator = "Tw") (s : ExtState) :
    processOp s op =
      (match op.Operands.get? 0 with
       | some o => some { s with textState := { s.textState with WordSpacing := number o } }
       | none => none) := by
  simp only [processOp, h, String.reduceEq, reduceIte]

theorem processOp_of_Tz {op : Operation} (h : op.Operator = "Tz") (s : ExtState) :
    processOp s op =
      (match op.Operands.get? 0 with
       | some o => some { s with textState := { s.textState with Scale := number o } }
       | none => none) := by
  simp only [processOp, h, String.reduceEq, reduceIte]

theorem processOp_of_TL {op : Operation} (h : op.Operator = "TL") (s : ExtState) :
    processOp s op =
      (match op.Operands.get? 0 with
       | some o => some { s with textState := { s.textState with Leading := number o } }
       | none => none) := by
  simp only [processOp, h, String.reduceEq, reduceIte]

theorem processOp_of_Tf {op : Operation} (h : op.Operator = "Tf") (s : ExtState) :
    processOp s op =
      (match op.Operands.get? 0 with
       | none => none
       | some o0 =>
         let s1 :=
           match o0 with
           | .Name nm =>
             match s.fonts.lookup nm with
             | some f => { s with textState := { s.textState with Font := some f } }
             | none => s
           | _ => s
         match op.Operands.get? 1 with
         | none => none
         | some o1 => some { s1 with textState := { s1.textState with FontSize := number o1 } }) := by
  simp only [processOp, h, String.reduceEq, reduceIte]

theorem processOp_of_Td {op : Operation} (h : op.Operator = "Td") (s : ExtState) :
    processOp s op =
      (match op.Operands.get? 0, op.Operands.get? 1 with
       | some o0, some o1 => some (applyTd s (number o0) (number o1))
       | _, _ => none) := by
  simp only [processOp, h, String.reduceEq, reduceIte]

theorem processOp_of_TD {op : Operation} (h : op.Operator = "TD") (s : ExtState) :
    processOp s op =
      (match op.Operands.get? 0, op.Operands.get? 1 with
       | some o0, some o1 =>
         some (applyTd { s with textState := { s.textState with Leading := -number o1 } }
                 (number o0) (number o1))
       | _, _ => none) := by
  simp only [processOp, h, String.reduceEq, reduceIte]

theorem processOp_of_Tm {op : Operation} (h : op.Operator = "Tm") (s : ExtState) :
    processOp s op =
      (if op.Operands.length = 6 then
        some { s with textState := { s.textState with
          TM := argsToMatrix op.Operands, TLM := argsToMatrix op.Operands } }
      else some s) := by
  simp only [processOp, h, String.reduceEq, reduceIte]

theorem processOp_of_TStar {op : Operation} (h : op.Operator = "T*") (s : ExtState) :
    processOp s op = some (applyTStar s) := by
  simp only [processOp, h, String.reduceEq, reduceIte]

theorem processOp_of_Tj {op : Operation} (h : op.Operator = "Tj") (s : ExtState) :
    processOp s op = some (applyTj s op.Operands) := by
  simp only [processOp, h, String.reduceEq, reduceIte]

theorem processOp_of_TJ {op : Operation} (h : op.Operator = "TJ") (s : ExtState) :
    processOp s op =
      (match op.Operands.get? 0 with
       | none => none
       | some o0 =>
         match o0 with
         | .Arr elems => some (elems.foldl tjStep s)
         | _ => some s) := by
  simp only [processOp, h, String.reduceEq, reduceIte]

theorem processOp_of_quote {op : Operation} (h : op.Operator = quoteOp) (s : ExtState) :
    processOp s op = some (applyTj (applyTStar s) op.Operands) := by
  unfold processOp
  rw [h]
  repeat rw [if_neg (by decide)]
  rw [if_pos rfl]

theorem processOp_of_dquote {op : Operation} (h : op.Operator = dquoteOp) (s : ExtState) :
    processOp s op =
      (match op.Operands.get? 0, op.Operands.get? 1 with
       | some o0, some o1 =>
         some (applyTj
           (applyTStar { s with textState := { s.textState with
             WordSpacing := number o0, CharSpacing := number o1 } })
           (op.Operands.drop 2))
       | _, _ => none) := by
  unfold processOp
  rw [h]
  repeat rw [if_neg (by decide)]
  rw [if_pos rfl]

theorem processOp_of_other {op : Operation}
    (h1 : op.Operator ≠ "q") (h2 : op.Operator ≠ "Q") (h3 : op.Operator ≠ "cm")
    (h4 : op.Operator ≠ "BT") (h5 : op.Operator ≠ "Tc") (h6 : op.Operator ≠ "Tw")
    (h7 : op.Operator ≠ "Tz") (h8 : op.Operator ≠ "TL") (h9 : op.Operator ≠ "Tf")
    (h10 : op.Operator ≠ "Td") (h11 : op.Operator ≠ "TD") (h12 : op.Operator ≠ "Tm")
    (h13 : op.Operator ≠ "T*") (h14 : op.Operator ≠ "Tj") (h15 : op.Operator ≠ "TJ")
    (h16 : op.Operator ≠ quoteOp) (h17 : op.Operator ≠ dquoteOp) (s : ExtState) :
    processOp s op = some s := by
  unfold processOp
  rw [if_neg h1, if_neg h2, if_neg h3, if_neg h4, if_neg h5, if_neg h6, if_neg h7,
    if_neg h8, if_neg h9, if_neg h10, if_neg h11, if_neg h12, if_neg h13, if_neg h14,
    if_neg h15, if_neg h16, if_neg h17]

theorem processOp_gStack {s s' : ExtState} {op : Operation}
    (h : processOp s op = some s') (hq : op.Operator ≠ "q") (hQ : op.Operator ≠ "Q") :
    s'.gStack = s.gStack := by
  by_cases h3 : op.Operator = "cm"
  · rw [processOp_of_cm h3] at h
    split at h <;> (cases h; rfl)
  by_cases h4 : op.Operator = "BT"
  · rw [processOp_of_BT h4] at h
    cases h; rfl
  by_cases h5 : op.Operator = "Tc"
  · rw [processOp_of_Tc h5] at h
    split at h <;> cases h
    rfl
  by_cases h6 : op.Operator = "Tw"
  · rw [processOp_of_Tw h6] at h
    split at h <;> cases h
    rfl
  by_cases h7 : op.Operator = "Tz"
  · rw [processOp_of_Tz h7] at h
    split at h <;> cases h
    rfl
  by_cases h8 : op.Operator = "TL"
  · rw [processOp_of_TL h8] at h
    split at h <;> cases h
    rfl
  by_cases h9 : op.Operator = "Tf"
  · rw [processOp_of_Tf h9] at h
    cases hg0 : op.Operands.get? 0 with
    | none => rw [hg0] at h; cases h
    | some o0 =>
      rw [hg0] at h
      dsimp only at h
      cases hg1 : op.Operands.get? 1 with
      | none => rw [hg1] at h; cases h
      | some o1 =>
        rw [hg1] at h
        dsimp only at h
        cases h
        split <;> (try split) <;> rfl
  by_cases h10 : op.Operator = "Td"
  · rw [processOp_of_Td h10] at h
    split at h <;> cases h
    rfl
  by_cases h11 : op.Operator = "TD"
  · rw [processOp_of_TD h11] at h
    split at h <;> cases h
    rfl
  by_cases h12 : op.Operator = "Tm"
  · rw [processOp_of_Tm h12] at h
    split at h <;> (cases h; rfl)
  by_cases h13 : op.Operator = "T*"
  · rw [processOp_of_TStar h13] at h
    cases h; rfl
  by_cases h14 : op.Operator = "Tj"
  · rw [processOp_of_Tj h14] at h
    cases h
    exact applyTj_gStack ..
  by_cases h15 : op.Operator = "TJ"
  · rw [processOp_of_TJ h15] at h
    split at h
    next => cases h
    next o0 =>
      split at h <;> cases h
      · exact foldl_tjStep_gStack ..
      · rfl
  by_cases h16 : op.Operator = quoteOp
  · rw [processOp_of_quote h16] at h
    cases h
    exact (applyTj_gStack ..).trans (applyTStar_gStack ..)
  by_cases h17 : op.Operator = dquoteOp
  · rw [processOp_of_dquote h17] at h
    split at h <;> cases h
    exact (applyTj_gStack ..).trans (applyTStar_gStack ..)
  rw [processOp_of_other hq hQ h3 h4 h5 h6 h7 h8 h9 h10 h11 h12 h13 h14 h15 h16 h17] at h
  cases h; rfl

theorem processOps_cons (op : Operation) (rest : List Operation) (s : ExtState) :
    processOps (op :: rest) s =
      (match processOp s op with
       | some s1 => processOps rest s1
       | none => none) := rfl

theorem processOps_append (xs ys : List Operation) (s : ExtState) :
    processOps (xs ++ ys) s = (processOps xs s).bind (fun t => processOps ys t) := by
  induction xs generalizing s with
  | nil => rfl
  | cons op rest ih =>
    rw [List.cons_append, processOps_cons, processOps_cons]
    cases processOp s op with
    | none => rfl
    | some s1 => exact ih s1

theorem processOps_stack :
    ∀ (ops : List Operation) (d : Nat) (s s' : ExtState),
      qqBalancedAux ops d = true → processOps ops s = some s' →
      s'.gStack = s.gStack.take (s.gStack.length - d) := by
  intro ops
  induction ops with
  | nil =>
    intro d s s' hb h
    have hd : d = 0 := by simpa [qqBalancedAux] using hb
    cases h
    simp [hd]
  | cons op rest ih =>
    intro d s s' hb h
    by_cases hq : op.Operator = "q"
    · rw [qqBalancedAux, if_pos hq] at hb
      rw [processOps_cons, processOp_of_q hq] at h
      have := ih (d + 1) _ s' hb h
      simp only [List.length_append, List.length_cons, List.length_nil] at this
      rw [this, List.take_append_of_le_length (by omega)]
      congr 1
      omega
    · by_cases hQ : op.Operator = "Q"
      · rw [qqBalancedAux, if_neg hq, if_pos hQ, Bool.and_eq_true] at hb
        obtain ⟨hd, hb⟩ := hb
        have hd0 : d ≠ 0 := by simpa using hd
        rw [processOps_cons, processOp_of_Q hQ] at h
        cases hlast : s.gStack.getLast? with
        | none =>
          have hnil : s.gStack = [] := List.getLast?_eq_none_iff.mp hlast
          rw [hlast] at h
          have := ih (d - 1) _ s' hb h
          rw [this, hnil]
          simp
        | some g =>
          rw [hlast] at h
          have := ih (d - 1) _ s' hb h
          have hne : s.gStack ≠ [] := by
            intro hc
            rw [hc] at hlast
            simp at hlast
          have hlen : 1 ≤ s.gStack.length := List.length_pos.mpr hne
          rw [this]
          simp only [List.length_dropLast]
          rw [List.dropLast_eq_take, List.take_take]
          congr 1
          omega
      · rw [qqBalancedAux, if_neg hq, if_neg hQ] at hb
        rw [processOps_cons] at h
        cases hstep : processOp s op with
        | none => rw [hstep] at h; cases h
        | some s1 =>
          rw [hstep] at h
          have hstack := processOp_gStack hstep hq hQ
          have := ih d s1 s' hb h
          rw [this, hstack]

/-- Claim C6 (amended): for every operation sequence `B` whose nested
`q`/`Q` count is balanced (every `Q` closes an open `q` and the counts
match), wrapping it as `q; B; Q` restores the CTM: if the wrapped sequence
executes without a panic, the ending CTM equals the starting CTM. -/
theorem q_bracket_restores_ctm (B : List Operation) (s s' : ExtState)
    (hb : qqBalancedAux B 0 = true)
    (h : processOps (⟨"q", []⟩ :: (B ++ [⟨"Q", []⟩])) s = some s') :
    s'.gState.CTM = s.gState.CTM := by
  rw [processOps_cons, processOp_of_q rfl] at h
  dsimp only at h
  rw [processOps_append] at h
  cases hB : processOps B { s with gStack := s.gStack ++ [s.gState] } with
  | none => rw [hB] at h; cases h
  | some s2 =>
    rw [hB] at h
    have hstack := processOps_stack B 0 _ s2 hb hB
    simp only [Nat.sub_zero, List.take_length] at hstack
    rw [Option.some_bind] at h
    rw [processOps_cons, processOp_of_Q rfl] at h
    rw [hstack, List.getLast?_concat] at h
    cases h
    rfl

/-- Witness for the amended claim C6: `B = [cm 2 0 0 2 0 0]` is balanced,
`q; B; Q` runs to completion from the initial state, and the theorem gives
back the starting CTM. -/
theorem q_bracket_restores_ctm_witness :
    qqBalancedAux [cmDouble] 0 = true
    ∧ processOps (⟨"q", []⟩ :: ([cmDouble] ++ [⟨"Q", []⟩])) initExtState
        = some { initExtState with gStack := [] }
    ∧ ({ initExtState with gStack := [] } : ExtState).gState.CTM
        = initExtState.gState.CTM := by
  have hrun : processOps (⟨"q", []⟩ :: ([cmDouble] ++ [⟨"Q", []⟩])) initExtState
      = some { initExtState with gStack := [] } := by
    simp [processOps, processOp, cmDouble, initExtState, mkExtState, argsToMatrix,
      Matrix.mult, IdentityMatrix, number]
  exact ⟨by decide, hrun,
    q_bracket_restores_ctm [cmDouble] initExtState _ (by decide) hrun⟩

theorem cmapDecodeLoop_eq_greedy (m : List (String × List Nat)) (bs : List Nat) :
    ∀ i, cmapDecodeLoop m bs i = greedyDecode m (bs.drop i) := by
  intro i
  generalize hk : bs.length - i = k
  induction k using Nat.strong_induction_on generalizing i with
  | _ k ih =>
  by_cases h : i < bs.length
  · have hd1 : bs.drop i = bs[i] :: bs.drop (i + 1) := List.drop_eq_getElem_cons h
    have hg1 : bs.getD i 0 = bs[i] := List.getD_eq_getElem bs 0 h
    rw [cmapDecodeLoop, dif_pos h]
    by_cases h2 : i + 1 < bs.length
    · have hd2 : bs.drop (i + 1) = bs[i + 1] :: bs.drop (i + 2) :=
        List.drop_eq_getElem_cons h2
      have hg2 : bs.getD (i + 1) 0 = bs[i + 1] := List.getD_eq_getElem bs 0 h2
      rw [if_pos h2, hg1, hg2, hd1, hd2]
      cases hlook : m.lookup (hex4 (bs[i] * 256 + bs[i + 1])) with
      | some v =>
        rw [greedyDecode, hlook]
        rw [ih (bs.length - (i + 2)) (by omega) (i + 2) rfl]
      | none =>
        rw [greedyDecode, hlook]
        cases hlook1 : m.lookup (hex4 bs[i]) with
        | some v =>
          rw [ih (bs.length - (i + 1)) (by omega) (i + 1) rfl, hd2]
        | none =>
          rw [ih (bs.length - (i + 1)) (by omega) (i + 1) rfl, hd2]
    · have hd2 : bs.drop (i + 1) = [] := List.drop_eq_nil_of_le (by omega)
      rw [if_neg h2, hg1, hd1, hd2]
      cases hlook1 : m.lookup (hex4 bs[i]) with
      | some v =>
        rw [greedyDecode, hlook1,
          ih (bs.length - (i + 1)) (by omega) (i + 1) rfl, hd2, greedyDecode,
          List.append_nil]
        simp
      | none =>
        rw [greedyDecode, hlook1,
          ih (bs.length - (i + 1)) (by omega) (i + 1) rfl, hd2, greedyDecode,
          List.append_nil]
  · rw [cmapDecodeLoop, dif_neg h, List.drop_eq_nil_of_le (by omega), greedyDecode]

/-- Claim C3 (amended): the `handleText` decode path equals the greedy
decode — with a font whose CMap is non-empty, at each position the 2-byte
key is tried, then the 1-byte key, then the raw byte is emitted as a
Latin-1 character; with an empty CMap or no font the raw bytes are
emitted unchanged. -/
theorem decode_matches_amended_claim (font : Option Pdf.Font) (bs : List Nat) :
    goStringDecode font bs = specDecodeAmended font bs := by
  cases font with
  | none => rfl
  | some f =>
    by_cases hc : f.CMap = []
    · simp [goStringDecode, specDecodeAmended, hc]
    · simp [goStringDecode, specDecodeAmended, hc, cmapDecodeLoop_eq_greedy]

theorem foldl_add_eq_sum (l : List Nat) (g : Nat → ℚ) (init : ℚ) :
    l.foldl (fun acc b => acc + g b) init = init + (l.map g).sum := by
  induction l generalizing init with
  | nil => simp
  | cons b rest ih =>
    rw [List.foldl_cons, ih, List.map_cons, List.sum_cons]
    ring

theorem sourceTotalWidth_eq_advanceWidthSpec (ts : TextState) (bs : List Nat) :
    sourceTotalWidth ts bs (goStringDecode ts.Font bs) = advanceWidthSpec ts bs := by
  unfold sourceTotalWidth advanceWidthSpec
  cases hf : ts.Font with
  | none => rfl
  | some f =>
    by_cases hw : f.Widths = []
    · simp [hw, hf]
    · simp only [hw, hf, ne_eq, not_false_iff, if_true, reduceIte]
      rw [foldl_add_eq_sum]
      ring

/-- Claim C1: every show-string invocation advances `TM[4]` and `TM[5]` by
exactly the §4.5 advance width times `TM[0]` and `TM[1]` respectively
(with a non-empty widths table the widths/char-spacing/word-spacing
formula, otherwise 0.5 em per decoded byte). -/
theorem show_string_advances_tm (s : ExtState) (obj : Object) (bs : List Nat)
    (h : rawBytesOf obj = some bs) :
    (handleText s obj).textState.TM.e
        = s.textState.TM.e + advanceWidthSpec s.textState bs * s.textState.TM.a
    ∧ (handleText s obj).textState.TM.f
        = s.textState.TM.f + advanceWidthSpec s.textState bs * s.textState.TM.b := by
  cases obj <;> simp only [rawBytesOf, Option.some.injEq, reduceCtorEq] at h
  all_goals (try cases h)
  all_goals
    simp [handleText, rawBytesOf, sourceTotalWidth_eq_advanceWidthSpec]

/-- Witness for claim C1: showing the byte `A` with `simpleFont` at size 12
advances `TM[4]` by the spec formula (here 6 user units). -/
theorem show_string_advances_tm_witness :
    (handleText simpleState (Object.Str [65])).textState.TM.e
        = simpleState.textState.TM.e
          + advanceWidthSpec simpleState.textState [65] * simpleState.textState.TM.a :=
  (show_string_advances_tm simpleState (Object.Str [65]) [65] rfl).1

theorem sourceThreshold_eq_amended (ts : TextState) :
    sourceThreshold ts = amendedThreshold ts := by
  unfold sourceThreshold amendedThreshold sourceSpaceWidth
  cases ts.Font with
  | none => norm_num
  | some f => rfl

/-- Claim C2 (amended): in every show-string invocation the buffer grows by
a separator and the decoded bytes, the separator is a newline exactly when
the vertical jump exceeds half the font size and the buffer is non-empty,
and it is a space exactly when (in the other case) the gap exceeds the
threshold, the buffer is non-empty and does not end in newline or space —
where the threshold is `0.5 × sw_user` when the font is known and
`sw_user` is positive, and `0.2 × size` otherwise. -/
theorem whitespace_reconstruction (s : ExtState) (obj : Object) (bs : List Nat)
    (h : rawBytesOf obj = some bs) :
    ((handleText s obj).buffer
        = s.buffer
          ++ wsSep s (s.textState.TM.mult s.gState.CTM).e (s.textState.TM.mult s.gState.CTM).f
          ++ goStringDecode s.textState.Font bs)
    ∧ (∀ x y : ℚ, wsSep s x y = [10] ↔
        (|y - s.lastY| > s.textState.FontSize * (1 / 2) ∧ s.buffer ≠ []))
    ∧ (∀ x y : ℚ, wsSep s x y = [32] ↔
        (¬(|y - s.lastY| > s.textState.FontSize * (1 / 2))
          ∧ x - s.lastX > amendedThreshold s.textState
          ∧ s.buffer ≠ []
          ∧ s.buffer.getLast? ≠ some 10
          ∧ s.buffer.getLast? ≠ some 32)) := by
  refine ⟨?_, ?_, ?_⟩
  · cases obj <;> simp only [rawBytesOf, Option.some.injEq, reduceCtorEq] at h
    all_goals (try cases h)
    all_goals rfl
  · intro x y
    unfold wsSep
    split_ifs <;> simp_all
  · intro x y
    unfold wsSep
    rw [sourceThreshold_eq_amended]
    split_ifs <;> simp_all

/-- Witness for the amended claim C2: a second string shown at the end of
the first from `simpleState` appends no separator, and both
characterisations hold there. -/
theorem whitespace_reconstruction_witness :
    (handleText simpleState (Object.Str [65])).buffer
        = simpleState.buffer
          ++ wsSep simpleState (simpleState.textState.TM.mult simpleState.gState.CTM).e
              (simpleState.textState.TM.mult simpleState.gState.CTM).f
          ++ goStringDecode simpleState.textState.Font [65] :=
  (whitespace_reconstruction simpleState (Object.Str [65]) [65] rfl).1

/-- Claim C2, counterexample: with a font whose stored space width is
negative (loaded from a `/Widths` entry for code 32), the source falls
back to the `0.2 × size` threshold while the claim's rule (font known,
space width ≠ 0) gives a negative threshold: at gap 0 the claim demands a
space, the code appends none. -/
theorem claim_threshold_mismatch :
    wsSep negSpaceState 0 0 = []
    ∧ (handleText negSpaceState (Object.Str [66])).buffer = [65, 66]
    ∧ (negSpaceState.textState.TM.mult negSpaceState.gState.CTM).e = 0
    ∧ (negSpaceState.textState.TM.mult negSpaceState.gState.CTM).f = 0
    ∧ ¬(|(0 : ℚ) - negSpaceState.lastY| > negSpaceState.textState.FontSize * (1 / 2))
    ∧ (0 : ℚ) - negSpaceState.lastX > claimThreshold negSpaceState.textState
    ∧ negSpaceState.buffer ≠ []
    ∧ negSpaceState.buffer.getLast? ≠ some 10
    ∧ negSpaceState.buffer.getLast? ≠ some 32 := by
  refine ⟨?_, ?_, by norm_num [negSpaceState, NewTextState, Matrix.mult, IdentityMatrix],
    by norm_num [negSpaceState, NewTextState, Matrix.mult, IdentityMatrix],
    by norm_num [negSpaceState, NewTextState], ?_, by decide, by decide, by decide⟩
  · norm_num [wsSep, negSpaceState, NewTextState, sourceThreshold, sourceSpaceWidth,
      negSpaceFont]
  · norm_num [handleText, rawBytesOf, negSpaceState, NewTextState, negSpaceFont,
      wsSep, sourceThreshold, sourceSpaceWidth, goStringDecode, Matrix.mult,
      IdentityMatrix]
  · norm_num [claimThreshold, negSpaceState, NewTextState, negSpaceFont]

/-- Claim C9: a `Tf` whose first operand is a name absent from the font
table leaves the current font (and every other field of the state) intact
and still sets the font size from the second operand. -/
theorem tf_unknown_font (s : ExtState) (nm : String) (o1 : Object) (rest : List Object)
    (h : s.fonts.lookup nm = none) :
    processOp s ⟨"Tf", .Name nm :: o1 :: rest⟩
      = some { s with textState := { s.textState with FontSize := number o1 } } := by
  rw [processOp_of_Tf rfl]
  simp [h]

/-- Witness for claim C9: `Tf /F2 9` with only `F1` loaded keeps the font
and sets size 9. -/
theorem tf_unknown_font_witness :
    processOp simpleState ⟨"Tf", [Object.Name "F2", Object.Number 9]⟩
      = some { simpleState with textState := { simpleState.textState with FontSize := 9 } } :=
  tf_unknown_font simpleState "F2" (Object.Number 9) [] (by decide)

theorem pageStep_pageNumber {gp : Nat → Option (List (String × Object))}
    {ne : List (String × Object) → Option ExtState}
    {ex : ExtState → Option (List Nat)} {i : Nat} {r : PageRec}
    (h : pageStep gp ne ex i = some r) : r.pageNumber = i + 1 := by
  unfold pageStep at h
  repeat' split at h
  all_goals cases h
  rfl

theorem pageStep_some_iff (gp : Nat → Option (List (String × Object)))
    (ne : List (String × Object) → Option ExtState)
    (ex : ExtState → Option (List Nat)) (i : Nat) :
    (∃ r, pageStep gp ne ex i = some r)
      ↔ ∃ pg e t, gp i = some pg ∧ ne pg = some e ∧ ex e = some t := by
  unfold pageStep
  cases hpg : gp i with
  | none => simp
  | some pg =>
    cases hne : ne pg with
    | none => simp [hne]
    | some e =>
      cases hex : ex e with
      | none => simp [hne, hex]
      | some t => simp [hne, hex]

theorem filterMap_pageStep_sublist (gp : Nat → Option (List (String × Object)))
    (ne : List (String × Object) → Option ExtState)
    (ex : ExtState → Option (List Nat)) :
    ∀ l : List Nat,
      ((l.filterMap (pageStep gp ne ex)).map PageRec.pageNumber).Sublist
        (l.map (· + 1)) := by
  intro l
  induction l with
  | nil => simp
  | cons i rest ih =>
    rw [List.filterMap_cons]
    cases hstep : pageStep gp ne ex i with
    | none =>
      rw [List.map_cons]
      exact ih.cons _
    | some r =>
      rw [List.map_cons, List.map_cons, pageStep_pageNumber hstep]
      exact ih.cons₂ _

/-- Claim C7: the emitted page records number at most `num_pages`, their
1-based page numbers form a (strictly increasing) sublist of
`[1..num_pages]`, and page `i+1` is emitted exactly when page retrieval,
extractor construction and extraction all succeed for index `i` — failed
pages are skipped while the others proceed in order. -/
theorem loadpdf_pages_strictly_increasing (n : Nat)
    (gp : Nat → Option (List (String × Object)))
    (ne : List (String × Object) → Option ExtState)
    (ex : ExtState → Option (List Nat)) :
    ((loadPDFPages n gp ne ex).map PageRec.pageNumber).Sublist (List.range' 1 n)
    ∧ (loadPDFPages n gp ne ex).length ≤ n
    ∧ ∀ i : Nat,
        ((i + 1) ∈ (loadPDFPages n gp ne ex).map PageRec.pageNumber
          ↔ i < n ∧ ∃ pg e t, gp i = some pg ∧ ne pg = some e ∧ ex e = some t) := by
  refine ⟨?_, ?_, ?_⟩
  · have hr : List.range' 1 n = (List.range n).map (· + 1) := by
      rw [List.range'_eq_map_range]
      exact List.map_congr_left (fun x _ => Nat.add_comm 1 x)
    rw [hr]
    exact filterMap_pageStep_sublist gp ne ex (List.range n)
  · calc (loadPDFPages n gp ne ex).length
        ≤ (List.range n).length := List.length_filterMap_le _ _
      _ = n := List.length_range n
  · intro i
    constructor
    · intro hmem
      obtain ⟨r, hr, hpn⟩ := List.mem_map.mp hmem
      obtain ⟨j, hj, hstep⟩ := List.mem_filterMap.mp hr
      have hji : j = i := by
        have := pageStep_pageNumber hstep
        omega
      subst hji
      refine ⟨List.mem_range.mp hj, ?_⟩
      exact (pageStep_some_iff gp ne ex j).mp ⟨r, hstep⟩
    · rintro ⟨hin, pg, e, t, hpg, hne, hex⟩
      have hstep : pageStep gp ne ex i = some (buildPage i pg t) := by
        simp [pageStep, hpg, hne, hex]
      refine List.mem_map.mpr ⟨buildPage i pg t, ?_, rfl⟩
      exact List.mem_filterMap.mpr ⟨i, List.mem_range.mpr hin, hstep⟩

/-- Claim C8: every emitted page record satisfies
`char_count = len(content)`, the byte length of the decoded string. -/
theorem page_charCount (n : Nat)
    (gp : Nat → Option (List (String × Object)))
    (ne : List (String × Object) → Option ExtState)
    (ex : ExtState → Option (List Nat)) (r : PageRec)
    (h : r ∈ loadPDFPages n gp ne ex) :
    r.charCount = r.content.length := by
  unfold loadPDFPages at h
  obtain ⟨j, hj, hstep⟩ := List.mem_filterMap.mp h
  unfold pageStep at hstep
  repeat' split at hstep
  all_goals cases hstep
  rfl

/-- Witness for claim C8: a one-page document whose extraction yields the
two bytes `Hi` has `char_count = 2 = len(content)`. -/
theorem page_charCount_witness :
    (buildPage 0 [] [72, 105]).charCount = (buildPage 0 [] [72, 105]).content.length :=
  page_charCount 1 (fun _ => some []) (fun _ => some initExtState)
    (fun _ => some [72, 105]) (buildPage 0 [] [72, 105]) (by decide)

/-- Claim C10: when `/Contents` resolves to neither a stream nor an array,
`ExtractText` returns the (empty) buffer with no error; and an array
element that does not resolve to a stream is skipped while the remaining
elements are kept in order. -/
theorem extract_contents_fallback :
    (∀ (resolve : Object → Object) (parse : List Nat → Option (List Operation))
        (page : List (String × Object)) (s : ExtState),
        isContentsCase (resolve (contentsObj page)) = false →
        extractText resolve parse page s = some s.buffer)
    ∧ (∀ (resolve : Object → Object) (pre : List Object) (x : Object) (post : List Object),
        asStream (resolve x) = none →
        collectStreams resolve (Object.Arr (pre ++ x :: post))
          = collectStreams resolve (Object.Arr (pre ++ post))) := by
  constructor
  · intro resolve parse page s h
    unfold extractText
    rcases hc : resolve (contentsObj page) <;>
      simp_all [isContentsCase, collectStreams]
  · intro resolve pre x post h
    simp [collectStreams, List.filterMap_append, List.filterMap_cons, h]

/-- Witness for claim C10: a page without `/Contents` extracts to the empty
buffer with no error, and a `Null` array element is skipped. -/
theorem extract_contents_fallback_witness :
    extractText id (fun _ => none) [] initExtState = some initExtState.buffer
    ∧ collectStreams id (Object.Arr ([] ++ Object.Null :: []))
        = collectStreams id (Object.Arr ([] ++ [])) :=
  ⟨extract_contents_fallback.1 id (fun _ => none) [] initExtState rfl,
   extract_contents_fallback.2 id [] Object.Null [] rfl⟩

end Pdf
